import Mathlib

/-!
Verification of the Unikraft EFI stub boot-handoff code (plat/kvm `efi.c`)
against its natural-language specification.

The C source is shallowly embedded: pure computations become Lean functions,
machine integers become `Nat` with an explicit `% 2 ^ 64` where 64-bit overflow
matters, and the firmware is modelled as an explicit oracle of call outcomes.
Each definition carries a doc comment pointing at the source lines it embeds.
-/

/-- Page size constant: both the kernel's __PAGE_SIZE / PAGE_SIZE and the
firmware's UK_EFI_PAGE_SIZE are 4 KiB in this configuration; the source uses
them interchangeably in `uk_efi_md_to_bi_mrd`. -/
def PAGE_SIZE : Nat := 4096

/-- UK_EFI_PAGE_SIZE, the EFI descriptor page granule (4 KiB). -/
def UK_EFI_PAGE_SIZE : Nat := 4096

/-- UK_EFI_MAXPATHLEN, the fixed maximum path length (efi.c line 36). -/
def UK_EFI_MAXPATHLEN : Nat := 4096

/-- The sentinel __SZ_MAX returned by the string conversions on overflow
(value of a 64-bit size_t all-ones). -/
def SZ_MAX : Nat := 2 ^ 64 - 1

/-- errno value EEXIST: returned (negated) by the translator for the
"already accounted for elsewhere" Skip outcome. -/
def EEXIST : Nat := 17

/-- errno value EINVAL: returned (negated) by the translator for an unknown
memory type. -/
def EINVAL : Nat := 22

/-- errno value ENOMEM: returned (negated) by the translator when the clamped
range degenerates. -/
def ENOMEM : Nat := 12

/-- DIV_ROUND_UP macro: ceiling division. -/
def DIV_ROUND_UP (n d : Nat) : Nat := (n + d - 1) / d

/-- Region type tags UKPLAT_MEMRT_* used by this file. -/
inductive UkplatMemrt where
  | FREE
  | RESERVED
  | CMDLINE
  | INITRD
  | DEVICETREE
deriving DecidableEq, Repr, Inhabited

/-- Access-flag bitmask UKPLAT_MEMRF_*: the READ, WRITE, EXECUTE and MAP bits
are distinct, so the bitmask is embedded as one Bool per bit. -/
structure UkplatMemrf where
  read : Bool
  write : Bool
  execute : Bool
  map : Bool
deriving DecidableEq, Repr, Inhabited

/-- struct ukplat_memregion_desc, restricted to the fields this file writes:
physical base, virtual base, length, type tag and access flags. Addresses and
lengths are 64-bit values embedded as Nat. -/
structure UkplatMemregionDesc where
  pbase : Nat
  vbase : Nat
  len : Nat
  type : UkplatMemrt
  flags : UkplatMemrf
deriving DecidableEq, Repr, Inhabited

/-- The closed EFI memory-type enumeration switched on by
`uk_efi_md_to_bi_mrd` (efi.c lines 147-204). Constructors keep the source
macro names; the memory-mapped I/O type carries a `_TYPE` suffix here purely
for lexical reasons. `other n` stands for any value outside the named set
(the switch's `default` arm). -/
inductive UkEfiMemType where
  | UK_EFI_RESERVED_MEMORY_TYPE
  | UK_EFI_LOADER_CODE
  | UK_EFI_LOADER_DATA
  | UK_EFI_BOOT_SERVICES_CODE
  | UK_EFI_BOOT_SERVICES_DATA
  | UK_EFI_RUNTIME_SERVICES_CODE
  | UK_EFI_RUNTIME_SERVICES_DATA
  | UK_EFI_CONVENTIONAL_MEMORY
  | UK_EFI_UNUSABLE_MEMORY
  | UK_EFI_ACPI_RECLAIM_MEMORY
  | UK_EFI_ACPI_MEMORY_NVS
  | UK_EFI_MEMORY_MAPPED_IO_TYPE
  | UK_EFI_MEMORY_MAPPED_IO_PORT_SPACE
  | UK_EFI_PAL_CODE
  | UK_EFI_PERSISTENT_MEMORY
  | other (n : Nat)
deriving DecidableEq, Repr

/-- struct uk_efi_mem_desc, restricted to the fields `uk_efi_md_to_bi_mrd`
reads: memory type, physical start and page count (both 64-bit). -/
structure UkEfiMemDesc where
  type : UkEfiMemType
  physical_start : Nat
  number_of_pages : Nat
deriving DecidableEq, Repr

/-- Outcome of the type switch of `uk_efi_md_to_bi_mrd` (efi.c lines 147-204),
before the range policy is applied: either a kept region class (type tag and
flags as assigned by the matching case), Skip (`return -EEXIST`), or Invalid
(`return -EINVAL`, the `default` arm). -/
inductive UkEfiMdClass where
  | keep (t : UkplatMemrt) (f : UkplatMemrf)
  | skip
  | invalid
deriving DecidableEq, Repr

/-- The type switch of `uk_efi_md_to_bi_mrd` (efi.c lines 147-204), with
`mat_present` standing for the global `uk_efi_mat_present` flag consulted by
the runtime-services arm (lines 171-172). -/
def uk_efi_md_classify (mat_present : Bool) (t : UkEfiMemType) : UkEfiMdClass :=
  match t with
  | .UK_EFI_RESERVED_MEMORY_TYPE
  | .UK_EFI_ACPI_RECLAIM_MEMORY
  | .UK_EFI_UNUSABLE_MEMORY
  | .UK_EFI_ACPI_MEMORY_NVS
  | .UK_EFI_PAL_CODE
  | .UK_EFI_PERSISTENT_MEMORY =>
      .keep .RESERVED { read := true, write := false, execute := false, map := true }
  | .UK_EFI_MEMORY_MAPPED_IO_TYPE
  | .UK_EFI_MEMORY_MAPPED_IO_PORT_SPACE =>
      .keep .RESERVED { read := true, write := true, execute := false, map := true }
  | .UK_EFI_RUNTIME_SERVICES_CODE
  | .UK_EFI_RUNTIME_SERVICES_DATA =>
      if mat_present then .skip
      else .keep .RESERVED { read := true, write := true, execute := false, map := true }
  | .UK_EFI_LOADER_CODE
  | .UK_EFI_LOADER_DATA => .skip
  | .UK_EFI_BOOT_SERVICES_CODE
  | .UK_EFI_BOOT_SERVICES_DATA
  | .UK_EFI_CONVENTIONAL_MEMORY =>
      .keep .FREE { read := true, write := true, execute := false, map := false }
  | .other _ => .invalid

/-- uk_efi_md_to_bi_mrd (efi.c lines 142-217): classify the descriptor by
type (the switch, `uk_efi_md_classify`), then apply the range policy of lines
206-215: clamp the start up to one page, compute the 64-bit end
`physical_start + number_of_pages * UK_EFI_PAGE_SIZE` (with wraparound), and
reject degenerate ranges with -ENOMEM. Errors are the negated errno values of
the source, carried positively in `Except`. -/
def uk_efi_md_to_bi_mrd (mat_present : Bool) (md : UkEfiMemDesc) :
    Except Nat UkplatMemregionDesc :=
  match uk_efi_md_classify mat_present md.type with
  | .skip => .error EEXIST
  | .invalid => .error EINVAL
  | .keep t f =>
      let start := max md.physical_start PAGE_SIZE
      let e := (md.physical_start + md.number_of_pages * UK_EFI_PAGE_SIZE) % 2 ^ 64
      if e ≤ start ∨ e - start < PAGE_SIZE then .error ENOMEM
      else .ok { pbase := start, vbase := start, len := e - start, type := t, flags := f }

/-- Spec-level view of the translator outcome: the spec's Skip is the source's
-EEXIST return. -/
def TranslateSkip (r : Except Nat UkplatMemregionDesc) : Prop :=
  r = .error EEXIST

/-- Spec-level view of the translator outcome: the spec's Invalid covers both
the unknown-type -EINVAL return and the degenerate-range -ENOMEM return. -/
def TranslateInvalid (r : Except Nat UkplatMemregionDesc) : Prop :=
  r = .error EINVAL ∨ r = .error ENOMEM

instance : DecidableEq (Except Nat UkplatMemregionDesc) := fun
  | .error a, .error b =>
    if h : a = b then .isTrue (by rw [h]) else .isFalse (by intro hc; cases hc; exact h rfl)
  | .error _, .ok _ => .isFalse (by intro h; cases h)
  | .ok _, .error _ => .isFalse (by intro h; cases h)
  | .ok a, .ok b =>
    if h : a = b then .isTrue (by rw [h]) else .isFalse (by intro hc; cases hc; exact h rfl)

instance (r : Except Nat UkplatMemregionDesc) : Decidable (TranslateSkip r) := by
  unfold TranslateSkip; infer_instance

instance (r : Except Nat UkplatMemregionDesc) : Decidable (TranslateInvalid r) := by
  unfold TranslateInvalid; infer_instance

/-- The memory-map walk of `uk_efi_setup_bootinfo_mrds` (efi.c lines 392-401):
every descriptor of the snapshot is translated; on a negative return the
descriptor is skipped (`continue`), otherwise the produced region is inserted
into the boot record's list. The external list container is embedded as a
Lean list in insertion order. -/
def uk_efi_map_walk (mat_present : Bool) (mds : List UkEfiMemDesc) :
    List UkplatMemregionDesc :=
  mds.filterMap (fun md =>
    match uk_efi_md_to_bi_mrd mat_present md with
    | .ok m => some m
    | .error _ => none)

/-- ascii_to_utf16 (efi.c lines 80-96), inner loop with running byte index
`i`. The input is the NUL-terminated source string given as the list of its
bytes before the NUL; the first result component is the sequence of bytes the
function stores at consecutive indices `i, i+1, ...` of `str16` (the writes
are strictly sequential in the source, so a list is a faithful record of
them), the second is the return value (`SZ_MAX` on overflow). Each loop turn
checks `i == max_len16` first, then writes the character byte and a zero high
byte; on normal exit the terminating zero pair is written and `i + 2`
returned. -/
def ascii_to_utf16_go (max_len16 : Nat) : List Nat → Nat → List Nat × Nat
  | [], i => ([0, 0], i + 2)
  | c :: rest, i =>
    if i = max_len16 then ([], SZ_MAX)
    else
      match ascii_to_utf16_go max_len16 rest (i + 2) with
      | (out, r) => (c :: 0 :: out, r)

/-- ascii_to_utf16 (efi.c lines 80-96): start the loop at index 0. -/
def ascii_to_utf16 (str : List Nat) (max_len16 : Nat) : List Nat × Nat :=
  ascii_to_utf16_go max_len16 str 0

/-- utf16_to_ascii (efi.c lines 99-114), inner loop with running output index
`i`. The input buffer is given as its sequence of 16-bit units, each as a
(low byte, high byte) pair; the source walks it through a plain char pointer,
so the loop condition `*str16` tests only the low byte of each unit and
`str16 += 2` skips the high byte — exactly the traversal embedded here. The
first result component is the byte sequence written at consecutive indices of
`str`, the second the return value. List exhaustion stands for reaching the
terminating zero unit. -/
def utf16_to_ascii_go (max_len : Nat) : List (Nat × Nat) → Nat → List Nat × Nat
  | [], i => ([0], i + 1)
  | (lo, _) :: rest, i =>
    if lo = 0 then ([0], i + 1)
    else if i = max_len then ([], SZ_MAX)
    else
      match utf16_to_ascii_go max_len rest (i + 1) with
      | (out, r) => (lo :: out, r)

/-- utf16_to_ascii (efi.c lines 99-114): start the loop at index 0. -/
def utf16_to_ascii (str16 : List (Nat × Nat)) (max_len : Nat) : List Nat × Nat :=
  utf16_to_ascii_go max_len str16 0

/-- Little-endian UTF-16 encoding of a 7-bit-clean byte string: each byte
becomes a 16-bit unit with a zero high byte. Used to state the round-trip
property over the conversion embeddings. -/
def utf16le : List Nat → List (Nat × Nat)
  | [] => []
  | c :: cs => (c, 0) :: utf16le cs

/-- The raw bytes of a UTF-16 unit sequence, low byte first: recovers the
byte-level view of a buffer (its byte-length L is twice the unit count). -/
def utf16_bytes : List (Nat × Nat) → List Nat
  | [] => []
  | (lo, hi) :: rest => lo :: hi :: utf16_bytes rest

/-- The relevant bits of the 64-bit attribute bitmask of a Memory Attribute
Table entry: UK_EFI_MEMORY_RUNTIME, UK_EFI_MEMORY_XP (execute-protected) and
UK_EFI_MEMORY_RO (read-only). The bits are distinct, so one Bool per bit. -/
structure UkEfiMemAttr where
  runtime : Bool
  xp : Bool
  ro : Bool
deriving DecidableEq, Repr, Inhabited

/-- A Memory Attribute Table entry as read by `uk_efi_rt_md_to_bi_mrds`:
physical start, page count, and the attribute bits. -/
structure UkEfiMatMd where
  physical_start : Nat
  number_of_pages : Nat
  attr : UkEfiMemAttr
deriving DecidableEq, Repr, Inhabited

/-- The Memory Attribute Table, with its entries already laid out at the
table's own descriptor stride: advancing `mat_md` by `descriptor_size` bytes
is stepping to the next list element, and `number_of_entries` is the list
length. -/
structure UkEfiMemAttrTbl where
  entries : List UkEfiMatMd
deriving DecidableEq, Repr

/-- Loop body of `uk_efi_rt_md_to_bi_mrds` for one runtime-marked entry
(efi.c lines 338-352): copy base and length unclamped, tag RESERVED, start
from the MAP flag and derive access bits from XP and RO. -/
def uk_efi_rt_mrd_of (m : UkEfiMatMd) : UkplatMemregionDesc :=
  { pbase := m.physical_start
    vbase := m.physical_start
    len := m.number_of_pages * UK_EFI_PAGE_SIZE
    type := .RESERVED
    flags :=
      if m.attr.xp then
        if m.attr.ro then
          { read := true, write := false, execute := false, map := true }
        else
          { read := true, write := true, execute := false, map := true }
      else
        { read := true, write := false, execute := true, map := true } }

/-- The conversion loop of `uk_efi_rt_md_to_bi_mrds` (efi.c lines 333-355).
The first Nat argument is the number of loop iterations left (the source
iterates `i` from 0 to `rt_mrds_count`; the count-down form makes the
recursion structural), `i` is the loop counter, `matIdx` the position of the
roving `mat_md` pointer (it only advances at the bottom of the loop body, so
the `continue` taken for a non-runtime entry skips the stride advance and the
next iteration re-reads the same entry), and `pool` the contents of the
buffer returned by allocate_pool — uninitialized, hence an arbitrary
caller-supplied list; slot `i` is overwritten only when the entry at `matIdx`
carries the runtime bit. -/
def uk_efi_rt_fill (entries : List UkEfiMatMd) :
    Nat → Nat → Nat → List UkplatMemregionDesc → List UkplatMemregionDesc
  | 0, _, _, pool => pool
  | n + 1, i, matIdx, pool =>
    let m := entries.getD matIdx default
    if m.attr.runtime then
      uk_efi_rt_fill entries n (i + 1) (matIdx + 1)
        (pool.set i (uk_efi_rt_mrd_of m))
    else
      uk_efi_rt_fill entries n (i + 1) matIdx pool

/-- uk_efi_rt_md_to_bi_mrds (efi.c lines 295-356): if no configuration-table
entry carries the MAT GUID the function returns at once — the found flag
stays false, the out-count stays 0 and the out-pointer stays whatever it was.
Otherwise the flag is set, a pool of `number_of_entries` descriptor slots is
allocated (contents `pool`, uninitialized), and the conversion loop fills it.
The result is (found flag, buffer contents after the loop, out-count). -/
def uk_efi_rt_md_to_bi_mrds (mat : Option UkEfiMemAttrTbl)
    (pool : List UkplatMemregionDesc) :
    Bool × List UkplatMemregionDesc × Nat :=
  match mat with
  | none => (false, [], 0)
  | some t =>
      (true, uk_efi_rt_fill t.entries t.entries.length 0 0 pool,
       t.entries.length)

/-- The runtime-region insertion loop of `uk_efi_setup_bootinfo_mrds`
(efi.c lines 374-379): every one of the `rt_mrds_count` slots of the buffer
is inserted, whether or not the conversion loop ever wrote it. -/
def uk_efi_rt_mrds_inserted (mat : Option UkEfiMemAttrTbl)
    (pool : List UkplatMemregionDesc) : List UkplatMemregionDesc :=
  match uk_efi_rt_md_to_bi_mrds mat pool with
  | (_, buf, count) => buf.take count

/-- The pointer flow of the local `rt_mrds` variable in
`uk_efi_setup_bootinfo_mrds` (efi.c lines 360, 374, 382): the local is
declared uninitialized (indeterminate value `junk`); `uk_efi_rt_md_to_bi_mrds`
stores the allocate_pool result into it only on the MAT-found path; free_pool
is then called on it unconditionally. The result is the pointer value handed
to free_pool. -/
def uk_efi_setup_mrds_free_pool_arg (mat : Option UkEfiMemAttrTbl)
    (allocated junk : Nat) : Nat :=
  match mat with
  | some _ => allocated
  | none => junk

/-- Firmware-visible events of `uk_efi_get_mmap_and_exit_bs`, in call order:
free_pages of the previous map, the dummy get_memory_map query, the page
allocation, the real get_memory_map query, exit_boot_services, and the two
terminal outcomes — normal return (`done`) and the fatal
crash (`uk_efi_do_crash`, a platform reset; with debug printing compiled out
the crash makes no further boot-services call). -/
inductive UkEfiBsEvent where
  | free
  | dummy
  | alloc
  | query
  | exitbs
  | done
  | crash
deriving DecidableEq, Repr, BEq

/-- Outcome oracle for the boot-services calls issued by
`uk_efi_get_mmap_and_exit_bs`, indexed by the current value of the `retries`
counter: whether the dummy query returns EFI_BUFFER_TOO_SMALL, whether the
allocation / real query / free of the previous map / exit_boot_services
return EFI_SUCCESS. -/
structure UkEfiBsOracle where
  dummyOk : Nat → Bool
  allocOk : Nat → Bool
  queryOk : Nat → Bool
  freeOk : Nat → Bool
  exitOk : Nat → Bool

/-- The retry loop of uk_efi_get_mmap_and_exit_bs (efi.c lines 228-282),
entered at the `uk_efi_get_mmap_retry` label with the current `retries`
value, as the sequence of firmware events it performs. A second retry
(`retries > 1`) crashes before any further call; a nonzero `retries` first
frees the previously allocated map; every unexpected status crashes; an
exit_boot_services failure increments `retries` and loops. -/
def uk_efi_get_mmap_loop (fw : UkEfiBsOracle) (retries : Nat) : List UkEfiBsEvent :=
  if h : 1 < retries then [.crash]
  else
    let cont :=
      .dummy :: (if !fw.dummyOk retries then [.crash]
      else .alloc :: (if !fw.allocOk retries then [.crash]
      else .query :: (if !fw.queryOk retries then [.crash]
      else .exitbs :: (if fw.exitOk retries then [.done]
      else uk_efi_get_mmap_loop fw (retries + 1)))))
    if retries ≠ 0 then
      .free :: (if !fw.freeOk retries then [.crash] else cont)
    else cont
termination_by 2 - retries
decreasing_by omega

/-- uk_efi_get_mmap_and_exit_bs (efi.c lines 219-283): the loop starts with
`retries = 0`. -/
def uk_efi_get_mmap_and_exit_bs (fw : UkEfiBsOracle) : List UkEfiBsEvent :=
  uk_efi_get_mmap_loop fw 0

/-- A firmware behaviour where every boot-services call succeeds except the
first exit_boot_services, which fails once: exit succeeds only at retry 1. -/
def c2_fw_fail_once : UkEfiBsOracle :=
  ⟨fun _ => true, fun _ => true, fun _ => true, fun _ => true, fun n => n == 1⟩

/-- The load-options branch of uk_efi_setup_bootinfo_cmdl (efi.c lines
523-538 and 548-552): when per-launch load options are present (non-null,
non-empty — here a non-empty unit list, whose byte size
`load_options_size` is twice the unit count), size the destination as the
byte size shifted right by one plus one, decode with `utf16_to_ascii`
bounded by that size minus one, crash on the sentinel (`none`), and
otherwise build the CMDLINE region at the allocated buffer address with the
decoded length. Regions are built from `mrd = {0}` defaults, so EXECUTE and
WRITE stay clear. -/
def uk_efi_setup_bootinfo_cmdl_mrd (load_options : List (Nat × Nat))
    (cmdl_ptr : Nat) : Option UkplatMemregionDesc :=
  if load_options.length ≠ 0 then
    let len := 2 * load_options.length / 2 + 1
    let r := utf16_to_ascii load_options (len - 1)
    if r.2 = SZ_MAX then none
    else some
      { pbase := cmdl_ptr
        vbase := cmdl_ptr
        len := r.2
        type := .CMDLINE
        flags := { read := true, write := false, execute := false, map := true } }
  else none

/-- The destination-buffer allocation of uk_efi_read_file (efi.c lines
486-493): `allocate_pages(.., DIV_ROUND_UP(*len, PAGE_SIZE), ..)` grants this
many bytes for a file of reported length `len`; line 503 then stores the
terminating zero at byte index `len` of that buffer. -/
def uk_efi_read_file_alloc_bytes (len : Nat) : Nat :=
  DIV_ROUND_UP len PAGE_SIZE * PAGE_SIZE

/-- C1: the descriptor translator classifies exhaustively by type:
reserved / ACPI-reclaim / unusable / ACPI-NVS / PAL-code / persistent-memory
give RESERVED with READ+MAP; memory-mapped I/O and port space give RESERVED
with READ+WRITE+MAP; loader code/data always Skip; boot-services code/data
and conventional memory give FREE with READ+WRITE; runtime-services
code/data Skip exactly when the attribute-table-found flag is set and
otherwise give RESERVED with READ+WRITE+MAP; every other type is Invalid.
The final conjunct ties the classification to `uk_efi_md_to_bi_mrd`: any
region the translator emits carries exactly the classified type and flags. -/
theorem c1_translator_classification :
    (∀ mp : Bool,
      uk_efi_md_classify mp .UK_EFI_RESERVED_MEMORY_TYPE =
        .keep .RESERVED { read := true, write := false, execute := false, map := true } ∧
      uk_efi_md_classify mp .UK_EFI_ACPI_RECLAIM_MEMORY =
        .keep .RESERVED { read := true, write := false, execute := false, map := true } ∧
      uk_efi_md_classify mp .UK_EFI_UNUSABLE_MEMORY =
        .keep .RESERVED { read := true, write := false, execute := false, map := true } ∧
      uk_efi_md_classify mp .UK_EFI_ACPI_MEMORY_NVS =
        .keep .RESERVED { read := true, write := false, execute := false, map := true } ∧
      uk_efi_md_classify mp .UK_EFI_PAL_CODE =
        .keep .RESERVED { read := true, write := false, execute := false, map := true } ∧
      uk_efi_md_classify mp .UK_EFI_PERSISTENT_MEMORY =
        .keep .RESERVED { read := true, write := false, execute := false, map := true } ∧
      uk_efi_md_classify mp .UK_EFI_MEMORY_MAPPED_IO_TYPE =
        .keep .RESERVED { read := true, write := true, execute := false, map := true } ∧
      uk_efi_md_classify mp .UK_EFI_MEMORY_MAPPED_IO_PORT_SPACE =
        .keep .RESERVED { read := true, write := true, execute := false, map := true } ∧
      uk_efi_md_classify mp .UK_EFI_LOADER_CODE = .skip ∧
      uk_efi_md_classify mp .UK_EFI_LOADER_DATA = .skip ∧
      uk_efi_md_classify mp .UK_EFI_BOOT_SERVICES_CODE =
        .keep .FREE { read := true, write := true, execute := false, map := false } ∧
      uk_efi_md_classify mp .UK_EFI_BOOT_SERVICES_DATA =
        .keep .FREE { read := true, write := true, execute := false, map := false } ∧
      uk_efi_md_classify mp .UK_EFI_CONVENTIONAL_MEMORY =
        .keep .FREE { read := true, write := true, execute := false, map := false } ∧
      (∀ n, uk_efi_md_classify mp (.other n) = .invalid)) ∧
    uk_efi_md_classify true .UK_EFI_RUNTIME_SERVICES_CODE = .skip ∧
    uk_efi_md_classify true .UK_EFI_RUNTIME_SERVICES_DATA = .skip ∧
    uk_efi_md_classify false .UK_EFI_RUNTIME_SERVICES_CODE =
      .keep .RESERVED { read := true, write := true, execute := false, map := true } ∧
    uk_efi_md_classify false .UK_EFI_RUNTIME_SERVICES_DATA =
      .keep .RESERVED { read := true, write := true, execute := false, map := true } ∧
    (∀ (mp : Bool) (md : UkEfiMemDesc) (m : UkplatMemregionDesc),
      uk_efi_md_to_bi_mrd mp md = .ok m →
      uk_efi_md_classify mp md.type = .keep m.type m.flags) := by
  refine ⟨fun mp => ⟨rfl, rfl, rfl, rfl, rfl, rfl, rfl, rfl, rfl, rfl, rfl, rfl, rfl,
    fun n => rfl⟩, rfl, rfl, rfl, rfl, ?_⟩
  intro mp md m h
  unfold uk_efi_md_to_bi_mrd at h
  cases hc : uk_efi_md_classify mp md.type with
  | skip => rw [hc] at h; exact absurd h (by simp)
  | invalid => rw [hc] at h; exact absurd h (by simp)
  | keep t f =>
      rw [hc] at h
      dsimp only at h
      split at h
      · exact absurd h (by simp)
      · injection h with h2
        subst h2
        rfl

/-- C1 witness: a conventional-memory descriptor is translated to a FREE
READ+WRITE region whose type and flags match its classification. -/
theorem c1_translator_classification_witness :
    uk_efi_md_classify false
        (UkEfiMemDesc.mk .UK_EFI_CONVENTIONAL_MEMORY 0x100000 16).type =
      .keep (UkplatMemregionDesc.mk 0x100000 0x100000 0x10000 .FREE
              ⟨true, true, false, false⟩).type
            (UkplatMemregionDesc.mk 0x100000 0x100000 0x10000 .FREE
              ⟨true, true, false, false⟩).flags :=
  c1_translator_classification.2.2.2.2.2 false _ _ (by decide)

/-- C3: for every descriptor the classification keeps, the translator clamps
the start up to one page, rejects as Invalid any range whose 64-bit end is at
or below the clamped start or whose clamped length is under one page, and
otherwise sets both bases to the clamped start (so base + length is the
64-bit end). A start=0, pages=1 descriptor of any type contributes no region,
and the two-descriptor scenario map with no attribute table yields exactly
one FREE READ+WRITE region covering [0x100000, 0x110000). -/
theorem c3_translator_range_policy :
    (∀ (mp : Bool) (md : UkEfiMemDesc) (m : UkplatMemregionDesc),
      uk_efi_md_to_bi_mrd mp md = .ok m →
        m.pbase = max md.physical_start PAGE_SIZE ∧
        m.vbase = max md.physical_start PAGE_SIZE ∧
        m.pbase + m.len =
          (md.physical_start + md.number_of_pages * UK_EFI_PAGE_SIZE) % 2 ^ 64) ∧
    (∀ (mp : Bool) (md : UkEfiMemDesc) (t : UkplatMemrt) (f : UkplatMemrf),
      uk_efi_md_classify mp md.type = .keep t f →
      ((md.physical_start + md.number_of_pages * UK_EFI_PAGE_SIZE) % 2 ^ 64 ≤
          max md.physical_start PAGE_SIZE ∨
        (md.physical_start + md.number_of_pages * UK_EFI_PAGE_SIZE) % 2 ^ 64 -
          max md.physical_start PAGE_SIZE < PAGE_SIZE) →
      TranslateInvalid (uk_efi_md_to_bi_mrd mp md)) ∧
    (∀ (mp : Bool) (ty : UkEfiMemType), uk_efi_map_walk mp [⟨ty, 0, 1⟩] = []) ∧
    uk_efi_map_walk false
      [⟨.UK_EFI_BOOT_SERVICES_DATA, 0x100000, 16⟩,
       ⟨.UK_EFI_RESERVED_MEMORY_TYPE, 0, 1⟩] =
      [⟨0x100000, 0x100000, 0x10000, .FREE, ⟨true, true, false, false⟩⟩] := by
  refine ⟨?_, ?_, ?_, by decide⟩
  · intro mp md m h
    unfold uk_efi_md_to_bi_mrd at h
    cases hc : uk_efi_md_classify mp md.type with
    | skip => rw [hc] at h; exact absurd h (by simp)
    | invalid => rw [hc] at h; exact absurd h (by simp)
    | keep t f =>
        rw [hc] at h
        dsimp only at h
        split at h
        · exact absurd h (by simp)
        · next hcond =>
            injection h with h2
            subst h2
            refine ⟨rfl, rfl, ?_⟩
            dsimp only
            push_neg at hcond
            omega
  · intro mp md t f hc hr
    unfold uk_efi_md_to_bi_mrd
    rw [hc]
    dsimp only
    rw [if_pos hr]
    exact Or.inr rfl
  · intro mp ty
    cases ty <;> first | rfl | (cases mp <;> rfl)

/-- C3 witness: the zero-page reserved descriptor of the scenario is rejected
as Invalid by the range policy. -/
theorem c3_translator_range_policy_witness :
    TranslateInvalid
      (uk_efi_md_to_bi_mrd false ⟨.UK_EFI_RESERVED_MEMORY_TYPE, 0, 1⟩) :=
  c3_translator_range_policy.2.1 false ⟨.UK_EFI_RESERVED_MEMORY_TYPE, 0, 1⟩
    .RESERVED { read := true, write := false, execute := false, map := true }
    (by decide) (by decide)

/-- C8 (code bug): for a file whose reported length is an exact multiple of
the page size, `uk_efi_read_file` allocates exactly `len` bytes
(DIV_ROUND_UP(len, PAGE_SIZE) pages), so the terminator store at byte index
`len` is one past the allocation rather than inside it: at len = 4096 the
allocation is 4096 bytes and index 4096 is not below the allocation size.
A zero-length file even gets a zero-byte allocation. -/
theorem c8_terminator_out_of_bounds :
    uk_efi_read_file_alloc_bytes 4096 = 4096 ∧
    ¬ 4096 < uk_efi_read_file_alloc_bytes 4096 ∧
    uk_efi_read_file_alloc_bytes 0 = 0 ∧
    uk_efi_read_file_alloc_bytes 100 = 4096 := by decide

/-- C10 (code bug): on the path where no Memory Attribute Table is found,
`uk_efi_setup_bootinfo_mrds` passes the still-uninitialized local `rt_mrds`
(an indeterminate value, here 0xdead) to free_pool — not a pointer previously
returned by allocate_pool (here 0x1000). On the MAT-found path the freed
pointer is the allocated one. -/
theorem c10_free_pool_unallocated_pointer :
    uk_efi_setup_mrds_free_pool_arg none 0x1000 0xdead = 0xdead ∧
    (0xdead : Nat) ≠ 0x1000 ∧
    uk_efi_setup_mrds_free_pool_arg (some ⟨[]⟩) 0x1000 0xdead = 0x1000 := by
  decide

/-- C7 counterexample: the load-options command line consisting of the single
character 'a' (one UTF-16 unit) is inserted as a CMDLINE region of length 2,
far below one page — the claimed invariant does not hold for loader-inserted
regions. -/
theorem c7_counterexample_cmdl_region :
    uk_efi_setup_bootinfo_cmdl_mrd [(97, 0)] 0x200000 =
      some ⟨0x200000, 0x200000, 2, .CMDLINE, ⟨true, false, false, true⟩⟩ ∧
    (UkplatMemregionDesc.mk 0x200000 0x200000 2 .CMDLINE
      ⟨true, false, false, true⟩).len < PAGE_SIZE := by decide

/-- C7 as amended: every region the descriptor translator emits satisfies
the invariant — length at least one page, end strictly above start, and a
base that is never zero (it is clamped up to at least one page). -/
theorem c7_amended_translator_invariant (mp : Bool) (md : UkEfiMemDesc)
    (m : UkplatMemregionDesc) (h : uk_efi_md_to_bi_mrd mp md = .ok m) :
    PAGE_SIZE ≤ m.len ∧ m.pbase ≠ 0 ∧ m.pbase < m.pbase + m.len := by
  unfold uk_efi_md_to_bi_mrd at h
  cases hc : uk_efi_md_classify mp md.type with
  | skip => rw [hc] at h; exact absurd h (by simp)
  | invalid => rw [hc] at h; exact absurd h (by simp)
  | keep t f =>
      rw [hc] at h
      dsimp only at h
      split at h
      · exact absurd h (by simp)
      · next hcond =>
          injection h with h2
          subst h2
          dsimp only
          push_neg at hcond
          constructor
          · exact hcond.2
          · have : PAGE_SIZE ≤ max md.physical_start PAGE_SIZE := le_max_right _ _
            unfold PAGE_SIZE at *
            omega

/-- C7 witness: the boot-services-data descriptor of the scenario yields a
region satisfying the invariant. -/
theorem c7_amended_translator_invariant_witness :
    PAGE_SIZE ≤ (UkplatMemregionDesc.mk 0x100000 0x100000 0x10000 .FREE
      ⟨true, true, false, false⟩).len ∧
    (UkplatMemregionDesc.mk 0x100000 0x100000 0x10000 .FREE
      ⟨true, true, false, false⟩).pbase ≠ 0 ∧
    (UkplatMemregionDesc.mk 0x100000 0x100000 0x10000 .FREE
      ⟨true, true, false, false⟩).pbase <
    (UkplatMemregionDesc.mk 0x100000 0x100000 0x10000 .FREE
      ⟨true, true, false, false⟩).pbase +
    (UkplatMemregionDesc.mk 0x100000 0x100000 0x10000 .FREE
      ⟨true, true, false, false⟩).len :=
  c7_amended_translator_invariant false
    ⟨.UK_EFI_BOOT_SERVICES_DATA, 0x100000, 16⟩ _ (by decide)

/-- C4 (code bug): with a Memory Attribute Table holding a non-runtime entry
followed by a runtime-marked one, the conversion loop's `continue` skips the
stride advance, so the roving pointer re-reads the first entry forever: no
slot of the scratch buffer is ever written, yet the assembler inserts all
`number_of_entries` slots — the inserted regions are the two uninitialized
pool values, and no region covers the runtime-marked entry. (When the table
is absent the found flag stays false and nothing is inserted.) -/
theorem c4_overlay_runtime_cover_bug :
    uk_efi_rt_mrds_inserted
        (some ⟨[⟨0x5000, 1, ⟨false, false, false⟩⟩,
                ⟨0x7000, 2, ⟨true, true, true⟩⟩]⟩)
        [⟨111, 111, 1, .FREE, ⟨false, false, false, false⟩⟩,
         ⟨222, 222, 1, .FREE, ⟨false, false, false, false⟩⟩] =
      [⟨111, 111, 1, .FREE, ⟨false, false, false, false⟩⟩,
       ⟨222, 222, 1, .FREE, ⟨false, false, false, false⟩⟩] ∧
    uk_efi_rt_mrd_of ⟨0x7000, 2, ⟨true, true, true⟩⟩ ∉
      uk_efi_rt_mrds_inserted
        (some ⟨[⟨0x5000, 1, ⟨false, false, false⟩⟩,
                ⟨0x7000, 2, ⟨true, true, true⟩⟩]⟩)
        [⟨111, 111, 1, .FREE, ⟨false, false, false, false⟩⟩,
         ⟨222, 222, 1, .FREE, ⟨false, false, false, false⟩⟩] ∧
    uk_efi_rt_md_to_bi_mrds none
        [⟨111, 111, 1, .FREE, ⟨false, false, false, false⟩⟩] =
      (false, [], 0) := by decide

/-- C5: for every runtime-marked attribute-table entry the overlay derives
the access bits as the claim states — execute-protected and read-only gives
READ alone among the access permissions, execute-protected but writable
gives READ+WRITE, and not execute-protected gives READ+EXECUTE — and a
single-entry table whose runtime entry is execute-protected and read-only
yields exactly one region whose only access permission is READ (the MAP bit,
set unconditionally for overlay regions, is not an access permission). -/
theorem c5_overlay_permission_derivation :
    (∀ m : UkEfiMatMd, m.attr.runtime = true →
      (m.attr.xp = true → m.attr.ro = true →
        (uk_efi_rt_mrd_of m).flags.read = true ∧
        (uk_efi_rt_mrd_of m).flags.write = false ∧
        (uk_efi_rt_mrd_of m).flags.execute = false) ∧
      (m.attr.xp = true → m.attr.ro = false →
        (uk_efi_rt_mrd_of m).flags.read = true ∧
        (uk_efi_rt_mrd_of m).flags.write = true ∧
        (uk_efi_rt_mrd_of m).flags.execute = false) ∧
      (m.attr.xp = false →
        (uk_efi_rt_mrd_of m).flags.read = true ∧
        (uk_efi_rt_mrd_of m).flags.write = false ∧
        (uk_efi_rt_mrd_of m).flags.execute = true)) ∧
    uk_efi_rt_mrds_inserted (some ⟨[⟨0x8000, 1, ⟨true, true, true⟩⟩]⟩)
        [⟨333, 333, 7, .FREE, ⟨false, false, false, false⟩⟩] =
      [⟨0x8000, 0x8000, 4096, .RESERVED, ⟨true, false, false, true⟩⟩] := by
  constructor
  · intro m _
    refine ⟨fun hxp hro => by simp [uk_efi_rt_mrd_of, hxp, hro],
      fun hxp hro => by simp [uk_efi_rt_mrd_of, hxp, hro],
      fun hxp => by simp [uk_efi_rt_mrd_of, hxp]⟩
  · decide

/-- C5 witness: an execute-protected, read-only runtime entry gets READ as
its only access permission. -/
theorem c5_overlay_permission_derivation_witness :
    (uk_efi_rt_mrd_of ⟨0x8000, 1, ⟨true, true, true⟩⟩).flags.read = true ∧
    (uk_efi_rt_mrd_of ⟨0x8000, 1, ⟨true, true, true⟩⟩).flags.write = false ∧
    (uk_efi_rt_mrd_of ⟨0x8000, 1, ⟨true, true, true⟩⟩).flags.execute = false :=
  (c5_overlay_permission_derivation.1 ⟨0x8000, 1, ⟨true, true, true⟩⟩ rfl).1
    rfl rfl

/-- The byte index of `ascii_to_utf16` steps by two from zero, so with an odd
bound the overflow check `i == max_len16` never fires: the conversion always
runs to the end of the input, returns twice its length plus two, and writes
that many bytes. -/
theorem ascii_to_utf16_go_odd (max : Nat) (hmax : max % 2 = 1) :
    ∀ (str : List Nat) (i : Nat), i % 2 = 0 →
      (ascii_to_utf16_go max str i).2 = i + 2 * str.length + 2 ∧
      (ascii_to_utf16_go max str i).1.length = 2 * str.length + 2 := by
  intro str
  induction str with
  | nil =>
      intro i hi
      refine ⟨?_, ?_⟩ <;> simp [ascii_to_utf16_go]
  | cons c rest ih =>
      intro i hi
      have hne : i ≠ max := by omega
      obtain ⟨h1, h2⟩ := ih (i + 2) (by omega)
      cases hgo : ascii_to_utf16_go max rest (i + 2) with
      | mk out r =>
          rw [hgo] at h1 h2
          simp only [ascii_to_utf16_go, if_neg hne, hgo]
          simp at h1 h2 ⊢
          omega

/-- Encoding a byte string doubles its length in 16-bit units. -/
theorem utf16le_length (cs : List Nat) : (utf16le cs).length = cs.length := by
  induction cs <;> simp [utf16le, *]

/-- The byte-level view of an encoded string has twice its character
count. -/
theorem utf16_bytes_utf16le_length (cs : List Nat) :
    (utf16_bytes (utf16le cs)).length = 2 * cs.length := by
  induction cs with
  | nil => simp [utf16le, utf16_bytes]
  | cons c rest ih => simp [utf16le, utf16_bytes, ih]; omega

/-- When the bound is not reached, `ascii_to_utf16` writes exactly the
little-endian encoding of its input followed by the zero terminator pair, and
returns the number of bytes written. -/
theorem ascii_to_utf16_go_fits (max : Nat) :
    ∀ (cs : List Nat) (i : Nat), i + 2 * cs.length ≤ max →
      ascii_to_utf16_go max cs i =
        (utf16_bytes (utf16le cs) ++ [0, 0], i + 2 * cs.length + 2) := by
  intro cs
  induction cs with
  | nil => intro i h; simp [ascii_to_utf16_go, utf16le, utf16_bytes]
  | cons c rest ih =>
      intro i h
      have hne : i ≠ max := by simp at h; omega
      simp only [ascii_to_utf16_go, if_neg hne]
      rw [ih (i + 2) (by simp at h ⊢; omega)]
      refine Prod.ext ?_ ?_
      · simp [utf16le, utf16_bytes]
      · simp
        omega

/-- When the bound is not reached, `utf16_to_ascii` decodes the little-endian
encoding of a NUL-free byte string back to that string plus its
terminator, and returns its length plus one. -/
theorem utf16_to_ascii_go_clean (max : Nat) :
    ∀ (cs : List Nat) (i : Nat), (∀ c ∈ cs, c ≠ 0) → i + cs.length ≤ max →
      utf16_to_ascii_go max (utf16le cs) i = (cs ++ [0], i + cs.length + 1) := by
  intro cs
  induction cs with
  | nil => intro i _ _; simp [utf16le, utf16_to_ascii_go]
  | cons c rest ih =>
      intro i hcl h
      have hc0 : c ≠ 0 := hcl c (by simp)
      have hne : i ≠ max := by simp at h; omega
      simp only [utf16le, utf16_to_ascii_go, if_neg hc0, if_neg hne]
      rw [ih (i + 1) (fun x hx => hcl x (by simp [hx])) (by simp at h ⊢; omega)]
      refine Prod.ext ?_ ?_
      · simp
      · simp
        omega

/-- C6 counterexample: a 2049-character file name needs 4100 bytes of UTF-16,
exceeding UK_EFI_MAXPATHLEN — yet at the `uk_efi_read_file` call-site bound
of UK_EFI_MAXPATHLEN − 1 the conversion does not return the sentinel, and it
writes past that bound (its write count exceeds it), refuting both halves of
the claim. -/
theorem c6_counterexample_path_conversion :
    UK_EFI_MAXPATHLEN < 2 * (List.replicate 2049 97).length + 2 ∧
    (ascii_to_utf16 (List.replicate 2049 97) (UK_EFI_MAXPATHLEN - 1)).2 ≠ SZ_MAX ∧
    UK_EFI_MAXPATHLEN - 1 <
      (ascii_to_utf16 (List.replicate 2049 97) (UK_EFI_MAXPATHLEN - 1)).1.length := by
  obtain ⟨h1, h2⟩ := ascii_to_utf16_go_odd (UK_EFI_MAXPATHLEN - 1) (by decide)
      (List.replicate 2049 97) 0 rfl
  unfold ascii_to_utf16
  simp only [List.length_replicate] at h1 h2
  refine ⟨by simp only [List.length_replicate]; decide, ?_, ?_⟩
  · rw [h1]; decide
  · rw [h2]; decide

/-- C6 as amended: at the `uk_efi_read_file` call site the bound passed to
`ascii_to_utf16` is UK_EFI_MAXPATHLEN − 1, which is odd while the write index
is always even, so the sentinel is never returned and the conversion writes
2·len+2 bytes; any file name whose conversion exceeds UK_EFI_MAXPATHLEN still
triggers the fatal-crash branch, because the returned byte count 2·len+2 then
exceeds UK_EFI_MAXPATHLEN. -/
theorem c6_amended_path_conversion_bound (str : List Nat) :
    (ascii_to_utf16 str (UK_EFI_MAXPATHLEN - 1)).2 = 2 * str.length + 2 ∧
    (ascii_to_utf16 str (UK_EFI_MAXPATHLEN - 1)).1.length = 2 * str.length + 2 ∧
    (UK_EFI_MAXPATHLEN < 2 * str.length + 2 →
      UK_EFI_MAXPATHLEN < (ascii_to_utf16 str (UK_EFI_MAXPATHLEN - 1)).2) := by
  obtain ⟨h1, h2⟩ := ascii_to_utf16_go_odd (UK_EFI_MAXPATHLEN - 1) (by decide) str 0 rfl
  unfold ascii_to_utf16
  refine ⟨by rw [h1]; omega, h2, ?_⟩
  intro h
  rw [h1]
  omega

/-- C6 amended witness: the 2049-character name makes the conversion return a
byte count above UK_EFI_MAXPATHLEN, triggering the crash branch. -/
theorem c6_amended_path_conversion_bound_witness :
    UK_EFI_MAXPATHLEN <
      (ascii_to_utf16 (List.replicate 2049 97) (UK_EFI_MAXPATHLEN - 1)).2 :=
  (c6_amended_path_conversion_bound (List.replicate 2049 97)).2.2
    (by simp only [List.length_replicate]; decide)

/-- C9: a 7-bit-clean load-options buffer (every unit a nonzero byte below
128 with a zero high byte) of byte-length L = 2·n decodes to exactly its n
characters — at most L/2 — and re-encoding the decoded string reproduces the
original buffer bytes exactly (followed only by the terminator pair), within
the length bounds of the two conversions. -/
theorem c9_load_options_roundtrip (cs : List Nat) (max max' : Nat)
    (hclean : ∀ c ∈ cs, c ≠ 0 ∧ c < 128)
    (hmax : cs.length ≤ max) (hmax' : 2 * cs.length ≤ max') :
    (utf16_to_ascii (utf16le cs) max).2 = cs.length + 1 ∧
    (utf16_to_ascii (utf16le cs) max).1 = cs ++ [0] ∧
    cs.length ≤ (utf16_bytes (utf16le cs)).length / 2 ∧
    (ascii_to_utf16 cs max').1 = utf16_bytes (utf16le cs) ++ [0, 0] := by
  have hdec := utf16_to_ascii_go_clean max cs 0 (fun c hc => (hclean c hc).1) (by omega)
  have henc := ascii_to_utf16_go_fits max' cs 0 (by omega)
  unfold utf16_to_ascii ascii_to_utf16
  rw [hdec, henc]
  refine ⟨by simp, rfl, ?_, rfl⟩
  rw [utf16_bytes_utf16le_length]
  omega

/-- C9 witness: the two-character string "hi" round-trips through the
conversions. -/
theorem c9_load_options_roundtrip_witness :
    (utf16_to_ascii (utf16le [104, 105]) 2).2 = [104, 105].length + 1 ∧
    (utf16_to_ascii (utf16le [104, 105]) 2).1 = [104, 105] ++ [0] ∧
    [104, 105].length ≤ (utf16_bytes (utf16le [104, 105])).length / 2 ∧
    (ascii_to_utf16 [104, 105] 4).1 = utf16_bytes (utf16le [104, 105]) ++ [0, 0] :=
  c9_load_options_roundtrip [104, 105] 2 4 (by decide) (by decide) (by decide)

/-- C2: with every other firmware call succeeding, an exit_boot_services that
fails at the first attempt and succeeds at the retry makes the engine free
the first map buffer exactly once and complete the handoff on the second
snapshot; a second exit failure re-enters the loop with the retry counter
above one, which is fatal at once — the crash is the only event after the
second failed exit, with no further boot-services call. -/
theorem c2_exit_bs_retry_protocol (fw : UkEfiBsOracle)
    (hd : ∀ n, fw.dummyOk n = true) (ha : ∀ n, fw.allocOk n = true)
    (hq : ∀ n, fw.queryOk n = true) (hf : ∀ n, fw.freeOk n = true) :
    (fw.exitOk 0 = false → fw.exitOk 1 = true →
      uk_efi_get_mmap_and_exit_bs fw =
        [.dummy, .alloc, .query, .exitbs, .free,
         .dummy, .alloc, .query, .exitbs, .done] ∧
      (uk_efi_get_mmap_and_exit_bs fw).count .free = 1) ∧
    (fw.exitOk 0 = false → fw.exitOk 1 = false →
      uk_efi_get_mmap_and_exit_bs fw =
        [.dummy, .alloc, .query, .exitbs, .free,
         .dummy, .alloc, .query, .exitbs, .crash]) := by
  have e0 : uk_efi_get_mmap_and_exit_bs fw =
      .dummy :: .alloc :: .query :: .exitbs ::
        (if fw.exitOk 0 then [.done] else uk_efi_get_mmap_loop fw 1) := by
    unfold uk_efi_get_mmap_and_exit_bs
    rw [uk_efi_get_mmap_loop]
    simp [hd, ha, hq]
  have e1 : uk_efi_get_mmap_loop fw 1 =
      .free :: .dummy :: .alloc :: .query :: .exitbs ::
        (if fw.exitOk 1 then [.done] else uk_efi_get_mmap_loop fw 2) := by
    rw [uk_efi_get_mmap_loop]
    simp [hd, ha, hq, hf]
  have e2 : uk_efi_get_mmap_loop fw 2 = [.crash] := by
    rw [uk_efi_get_mmap_loop]
    simp
  constructor
  · intro h0 h1
    have ht : uk_efi_get_mmap_and_exit_bs fw =
        [.dummy, .alloc, .query, .exitbs, .free,
         .dummy, .alloc, .query, .exitbs, .done] := by
      rw [e0, h0, e1, h1]
      simp
    refine ⟨ht, ?_⟩
    rw [ht]
    rfl
  · intro h0 h1
    rw [e0, h0, e1, h1, e2]
    simp

/-- C2 witness: under the fail-once firmware behaviour the handoff completes
on the second snapshot with exactly one free of the first buffer. -/
theorem c2_exit_bs_retry_protocol_witness :
    uk_efi_get_mmap_and_exit_bs c2_fw_fail_once =
      [.dummy, .alloc, .query, .exitbs, .free,
       .dummy, .alloc, .query, .exitbs, .done] ∧
    (uk_efi_get_mmap_and_exit_bs c2_fw_fail_once).count .free = 1 :=
  (c2_exit_bs_retry_protocol c2_fw_fail_once (fun _ => rfl) (fun _ => rfl)
    (fun _ => rfl) (fun _ => rfl)).1 rfl rfl
